import Mathlib

/-!
Verification of the rag-chu medical RAG backend.

Shallow embedding of the core pipeline of `src/backend/src`:
`vision_processor.py` (page extraction, chunk attribution, metadata),
`rag_service.py` (collection management, document processing, retrieval)
and `main.py` (the streaming chat endpoint's fallback generator).

Python strings are embedded as `List Char`; Python dict-based records as
structures with `Option` fields where the code reads them with `.get`
defaults. External collaborators (the vision model HTTP endpoint, the
embedding model, the vector-store client's low-level outcomes) are passed
in as explicit oracle arguments, mirroring exactly the control flow the
Python code performs on their results.
-/

namespace RagChu

/-- Python strings, embedded as lists of characters. -/
abbrev Str := List Char

/-- The whitespace characters recognised by Python's `str.split()` /
`str.strip()` for the ASCII range (space, tab, newline, carriage return,
vertical tab, form feed). -/
def isPyWS (c : Char) : Bool :=
  c = ' ' || c = '\t' || c = '\n' || c = '\r' || c = '\x0b' || c = '\x0c'

/-- Python's `s.strip()`: remove leading and trailing whitespace. -/
def pyStrip (s : Str) : Str :=
  ((s.dropWhile isPyWS).reverse.dropWhile isPyWS).reverse

/-- Python's `s.split()` with no argument: split on runs of whitespace,
discarding empty pieces (hence also leading/trailing whitespace). -/
def pySplitWS (s : Str) : List Str :=
  (s.splitOnP isPyWS).filter (· ≠ [])

/-- Python's `s.lower()` (ASCII case folding suffices for the entity
strings compared by the code). -/
def pyLower (s : Str) : Str := s.map Char.toLower

/-!
## The streaming endpoint's fallback generator (`main.py`, `generate_response`)

When `rag_chain.astream` raises, the endpoint runs the blocking call
`full_response = rag_chain.invoke(request.question)`, splits it into
whitespace-delimited words and emits, for each word at index `i`,
the increment `word + (" " if i < len(words) - 1 else "")`.
-/

/-- The increments emitted by the fallback path of `generate_response` for a
given blocking answer `full_response`: each whitespace-delimited word,
followed by a single space except for the last word. -/
def fallback_increments (full_response : Str) : List Str :=
  let words := pySplitWS full_response
  words.enum.map (fun p => p.2 ++ (if p.1 < words.length - 1 then [' '] else []))

/-- The client-visible concatenation of all increments emitted by the
fallback path. -/
def fallback_concat (full_response : Str) : Str :=
  (fallback_increments full_response).flatten

theorem intercalate_single (sep a : Str) : List.intercalate sep [a] = a := by
  simp [List.intercalate, List.intersperse]

theorem intercalate_cons_cons (sep a b : Str) (l : List Str) :
    List.intercalate sep (a :: b :: l) = a ++ sep ++ List.intercalate sep (b :: l) := by
  simp [List.intercalate, List.intersperse_cons₂, List.append_assoc]

theorem flatten_enumFrom_words (n : Nat) :
    ∀ (ws : List Str) (k : Nat), k + ws.length = n →
      ((ws.enumFrom k).map
          (fun p => p.2 ++ (if p.1 < n - 1 then [' '] else []))).flatten
        = List.intercalate [' '] ws := by
  intro ws
  induction ws with
  | nil => intro k _; simp [List.intercalate]
  | cons w ws ih =>
    intro k hk
    cases ws with
    | nil =>
      simp only [List.length_cons, List.length_nil, Nat.zero_add] at hk
      have hlt : ¬ (k < n - 1) := by omega
      simp [hlt, intercalate_single]
    | cons w' ws' =>
      have hlt : k < n - 1 := by
        simp only [List.length_cons] at hk; omega
      have hk' : (k + 1) + (w' :: ws').length = n := by
        simp only [List.length_cons] at hk ⊢; omega
      rw [List.enumFrom_cons, List.map_cons, List.flatten_cons, ih (k + 1) hk',
        intercalate_cons_cons]
      simp [hlt, List.append_assoc]

/-- C1 counterexample: for the blocking answer `"a\nb"`, the fallback path
emits the increments `["a ", "b"]`, whose concatenation is `"a b"`; neither
that concatenation nor the result of stripping the inserted spacing from it
(`"ab"`) equals the blocking answer `"a\nb"`.  The fallback re-emission is
only faithful up to whitespace normalization, so the claim as stated
(exact equality with the blocking text) is false. -/
theorem C1_streaming_fallback_counterexample :
    fallback_concat ("a\nb".toList) ≠ "a\nb".toList ∧
    (pySplitWS "a\nb".toList).flatten ≠ "a\nb".toList ∧
    fallback_concat ("a\nb".toList) = "a b".toList := by decide

/-- C1 (amended): for every blocking answer, the concatenation of the
increments emitted by the fallback path equals the answer's
whitespace-delimited words joined by single spaces (the answer with every
whitespace run normalized to one space and leading/trailing whitespace
dropped); consequently it equals the blocking answer itself exactly when
the answer is already in that space-normalized form. -/
theorem C1_streaming_fallback_amended (full_response : Str) :
    fallback_concat full_response
      = List.intercalate [' '] (pySplitWS full_response) ∧
    (fallback_concat full_response = full_response ↔
      List.intercalate [' '] (pySplitWS full_response) = full_response) := by
  have h : fallback_concat full_response
      = List.intercalate [' '] (pySplitWS full_response) := by
    unfold fallback_concat fallback_increments
    exact flatten_enumFrom_words (pySplitWS full_response).length
      (pySplitWS full_response) 0 (by omega)
  exact ⟨h, by rw [h]⟩

/-!
## Vision extraction (`vision_processor.py`)

`VisualDocumentAnalyzer.analyze_page_structure` posts the page image to the
vision endpoint and parses the response; `_fallback_analysis` is the
degraded result used on any failure.  The HTTP outcome and the JSON parser
(`json.loads` plus the response-body field access) are oracles; the
embedding mirrors the status check, the `find('{')`/`rfind('}')` JSON
location logic and the catch-all `except` exactly.
-/

/-- One `sections[]` entry of the parsed vision response (JSON numbers are
embedded as rationals; the pipeline never computes with them). -/
structure SectionRec where
  title : Str
  type : Str
  text_content : Str
  start_char : Int
  end_char : Int
  medical_entities : List Str
  confidence : ℚ
deriving DecidableEq

/-- The `key_medical_info` aggregate of a page analysis. -/
structure KeyMedicalInfo where
  medications : List Str
  dosages : List Str
  clinical_criteria : List Str
  patient_types : List Str
deriving DecidableEq

/-- A page-analysis dict.  Fields are `Option`s because the parsed JSON may
omit them; every consumer reads them with Python's `.get(key, default)`,
embedded as `Option.getD`. -/
structure PageAnalysis where
  full_text : Option Str
  page_type : Option Str
  page_number : Option Nat
  sections : Option (List SectionRec)
  key_medical_info : Option KeyMedicalInfo
deriving DecidableEq

/-- `VisualDocumentAnalyzer._fallback_analysis(page_num)`: all fields
present but empty/zero, with the given page number. -/
def fallback_analysis (page_num : Nat) : PageAnalysis :=
  { full_text := some []
    page_type := some "unknown".toList
    page_number := some page_num
    sections := some []
    key_medical_info := some ⟨[], [], [], []⟩ }

/-- Python's `s.find(c)`: index of the first occurrence, `-1` if absent. -/
def pyFind (c : Char) : Str → Int
  | [] => -1
  | d :: s =>
    if d = c then 0
    else
      let r := pyFind c s
      if r = -1 then -1 else r + 1

/-- Python's `s.rfind(c)`: index of the last occurrence, `-1` if absent. -/
def pyRFind (c : Char) (s : Str) : Int :=
  let r := pyFind c s.reverse
  if r = -1 then -1 else (s.length : Int) - 1 - r

/-- Python's slice `s[a:b]` for the non-negative indices arising in
`analyze_page_structure`. -/
def pySlice (s : Str) (a b : Int) : Str :=
  (s.take b.toNat).drop a.toNat

/-- Outcome of the `httpx` POST to the vision endpoint: either the call
raises (network error, timeout, malformed response body) or it yields a
status code together with the response's content text. -/
inductive ApiOutcome where
  | raises (msg : Str)
  | response (status : Nat) (body : Str)
deriving DecidableEq

/-- `VisualDocumentAnalyzer.analyze_page_structure`, with the HTTP outcome
and the JSON parser as oracles.  On status 200 it locates the JSON object
between the first `\x7b` and the last `\x7d` (note `json_end = rfind + 1`
can never be `-1`, mirroring the code), parses it and stamps the page
number; every failure path is caught by the surrounding `except` and
degrades to `fallback_analysis`. -/
def analyze_page_structure (parse : Str → Option PageAnalysis)
    (outcome : ApiOutcome) (page_num : Nat) : PageAnalysis :=
  match outcome with
  | .raises _ => fallback_analysis page_num
  | .response status body =>
    if status = 200 then
      if pyFind '\x7b' body ≠ -1 ∧ pyRFind '\x7d' body + 1 ≠ -1 then
        match parse (pySlice body (pyFind '\x7b' body) (pyRFind '\x7d' body + 1)) with
        | some a => { a with page_number := some page_num }
        | none => fallback_analysis page_num
      else fallback_analysis page_num
    else fallback_analysis page_num

/-- The failure cases of `analyze_page_structure`: the call raised, the
status was not 200, the body contains no `\x7b` (the "No JSON found"
branch), or the located JSON slice does not parse. -/
def extractionFailure (parse : Str → Option PageAnalysis) : ApiOutcome → Bool
  | .raises _ => true
  | .response status body =>
    status != 200 ||
    pyFind '\x7b' body == -1 ||
    (parse (pySlice body (pyFind '\x7b' body) (pyRFind '\x7d' body + 1))).isNone

/-- `pyFind` either reports absence or a genuine index into the string. -/
theorem pyFind_cases (c : Char) :
    ∀ s : Str, pyFind c s = -1 ∨ (0 ≤ pyFind c s ∧ pyFind c s < s.length) := by
  intro s
  induction s with
  | nil => left; rfl
  | cons d s ih =>
    by_cases hd : d = c
    · right
      constructor <;> simp [pyFind, hd]
    · rcases ih with h | h
      · left; simp [pyFind, hd, h]
      · right
        have hne : pyFind c s ≠ -1 := by omega
        simp only [pyFind, hd, if_false, hne, ite_false, List.length_cons]
        omega

/-- The Python quirk: `json_end = rfind + 1` is never `-1`, because `rfind`
returns either `-1` or a valid index. -/
theorem json_end_nonneg (body : Str) : (0 : Int) ≤ pyRFind '\x7d' body + 1 := by
  unfold pyRFind
  rcases pyFind_cases '\x7d' body.reverse with h | h
  · simp [h]
  · have hne : pyFind '\x7d' body.reverse ≠ -1 := by omega
    rw [if_neg hne]
    rw [List.length_reverse] at h
    omega

/-- C6: on any extraction error (network failure, non-200 status, missing
or unparseable JSON) `analyze_page_structure` returns the fallback
analysis — all fields present but empty/zero, with the given page
number — and, being a total function of the outcome, never propagates the
error to the caller. -/
theorem C6_vision_failure_fallback (parse : Str → Option PageAnalysis)
    (outcome : ApiOutcome) (page_num : Nat)
    (h : extractionFailure parse outcome = true) :
    analyze_page_structure parse outcome page_num = fallback_analysis page_num ∧
    (fallback_analysis page_num).full_text = some [] ∧
    (fallback_analysis page_num).sections = some [] ∧
    (fallback_analysis page_num).key_medical_info = some ⟨[], [], [], []⟩ ∧
    (fallback_analysis page_num).page_number = some page_num := by
  cases outcome with
  | raises m => exact ⟨rfl, rfl, rfl, rfl, rfl⟩
  | response status body =>
    refine ⟨?_, rfl, rfl, rfl, rfl⟩
    simp only [extractionFailure, Bool.or_eq_true, bne_iff_ne, beq_iff_eq,
      Option.isNone_iff_eq_none] at h
    show (if status = 200 then
        if pyFind '\x7b' body ≠ -1 ∧ pyRFind '\x7d' body + 1 ≠ -1 then
          match parse (pySlice body (pyFind '\x7b' body) (pyRFind '\x7d' body + 1)) with
          | some a => { a with page_number := some page_num }
          | none => fallback_analysis page_num
        else fallback_analysis page_num
      else fallback_analysis page_num) = fallback_analysis page_num
    by_cases hs : status = 200
    · subst hs
      rw [if_pos rfl]
      rcases h with (h | h) | h
      · exact absurd rfl h
      · rw [if_neg]
        intro hcon
        exact hcon.1 h
      · by_cases hstart : pyFind '\x7b' body = -1
        · rw [if_neg]
          intro hcon
          exact hcon.1 hstart
        · have hend : pyRFind '\x7d' body + 1 ≠ -1 := by
            have := json_end_nonneg body
            omega
          rw [if_pos ⟨hstart, hend⟩]
          rcases hp : parse (pySlice body (pyFind '\x7b' body) (pyRFind '\x7d' body + 1))
            with _ | a
          · rfl
          · rw [h] at hp; cases hp
    · rw [if_neg hs]

/-- C6 witness: a concrete failing outcome (status 500, parser that never
succeeds) yields exactly the fallback analysis for page 3. -/
theorem C6_vision_failure_fallback_witness :
    extractionFailure (fun _ => none) (ApiOutcome.response 500 "x".toList) = true ∧
    analyze_page_structure (fun _ => none) (ApiOutcome.response 500 "x".toList) 3
      = fallback_analysis 3 :=
  ⟨rfl,
    (C6_vision_failure_fallback (fun _ => none)
      (ApiOutcome.response 500 "x".toList) 3 rfl).1⟩

/-!
## Chunk-to-page attribution (`vision_processor.py`,
`IntelligentMedicalProcessor._find_page_for_chunk`)

Python's `a in b` on strings is contiguous-substring containment, embedded
as `List.IsInfix` (`<:+:`).
-/

/-- `IntelligentMedicalProcessor._find_page_for_chunk`: walk the analyses
in list order; the first one whose `full_text` is contained in the chunk
or contains the chunk wins; otherwise page 0. -/
def find_page_for_chunk (chunk_text : Str) : List PageAnalysis → Nat
  | [] => 0
  | a :: rest =>
    if (a.full_text.getD []) <:+: chunk_text ∨ chunk_text <:+: (a.full_text.getD [])
    then a.page_number.getD 0
    else find_page_for_chunk chunk_text rest

/-- The match predicate of `_find_page_for_chunk`, as a Boolean. -/
def pageMatches (chunk_text : Str) (a : PageAnalysis) : Bool :=
  decide ((a.full_text.getD []) <:+: chunk_text) ||
  decide (chunk_text <:+: (a.full_text.getD []))

/-- C7: the resolved source page is the `page_number` of the first analysis
in page order whose `full_text` is a substring of the chunk or contains the
chunk (`List.find?` captures "first match wins"); if no analysis matches,
the resolved page is 0. -/
theorem C7_chunk_page_attribution (chunk_text : Str)
    (page_analyses : List PageAnalysis) :
    find_page_for_chunk chunk_text page_analyses
      = ((page_analyses.find? (pageMatches chunk_text)).map
          (fun a => a.page_number.getD 0)).getD 0 := by
  induction page_analyses with
  | nil => rfl
  | cons a rest ih =>
    by_cases hm : (a.full_text.getD []) <:+: chunk_text ∨
        chunk_text <:+: (a.full_text.getD [])
    · have hb : pageMatches chunk_text a = true := by
        unfold pageMatches
        rcases hm with hm | hm <;> simp [hm]
      rw [find_page_for_chunk, if_pos hm, List.find?_cons_of_pos _ hb]
      rfl
    · have hb : pageMatches chunk_text a = false := by
        unfold pageMatches
        push_neg at hm
        simp [hm.1, hm.2]
      rw [find_page_for_chunk, if_neg hm, List.find?_cons_of_neg _ (by simp [hb]), ih]

/-- C9: the empty string is an infix of every chunk, so an analysis with
empty `full_text` (exactly what the extraction fallback produces) matches
every chunk; if it is first in the list, every chunk of the document is
attributed to its page number, and in particular a fallback analysis for
page 0 at the head attributes every chunk to page 0. -/
theorem C9_empty_page_absorbs_attribution (chunk_text : Str)
    (first : PageAnalysis) (rest : List PageAnalysis)
    (_hne : chunk_text ≠ [])
    (hft : first.full_text.getD [] = []) :
    find_page_for_chunk chunk_text (first :: rest) = first.page_number.getD 0 ∧
    find_page_for_chunk chunk_text (fallback_analysis 0 :: rest) = 0 := by
  constructor
  · rw [find_page_for_chunk, if_pos]
    left
    rw [hft]
    exact List.nil_infix
  · rw [find_page_for_chunk, if_pos]
    · rfl
    · left
      exact List.nil_infix

/-- C9 witness: a chunk `"dose"` with a head analysis having empty
`full_text` and page number 7 is attributed to page 7; with the page-0
fallback analysis at the head it is attributed to page 0. -/
theorem C9_empty_page_absorbs_attribution_witness :
    find_page_for_chunk "dose".toList
        [{ fallback_analysis 7 with page_number := some 7 }] = 7 ∧
    find_page_for_chunk "dose".toList [fallback_analysis 0] = 0 :=
  C9_empty_page_absorbs_attribution "dose".toList
    { fallback_analysis 7 with page_number := some 7 } []
    (by decide) rfl

/-!
## Whole-document processing (`vision_processor.py`,
`IntelligentMedicalProcessor.process_medical_document`)

The per-page API calls are absorbed into the input list of page analyses
(one per rasterized page, in page order); the langchain
`RecursiveCharacterTextSplitter.split_text` library call is an injected
external collaborator, passed as the `split` argument.
-/

/-- The metadata dict attached to each produced chunk. -/
structure ChunkMetadata where
  source : Str
  chunk_id : Nat
  page : Nat
  chunk_size : Nat
  medical_entities : List Str
  document_type : Str
  extraction_method : Str
  total_chunks : Nat
deriving DecidableEq

/-- A `LangChainDocument` as built by `process_medical_document`. -/
structure LCDoc where
  page_content : Str
  metadata : ChunkMetadata
deriving DecidableEq

/-- The candidate entity strings of one analysis, in the order the code
iterates them (`medications`, `dosages`, `clinical_criteria`,
`patient_types`), with the `.get` defaults applied. -/
def kmiEntities (a : PageAnalysis) : List Str :=
  let k := a.key_medical_info.getD ⟨[], [], [], []⟩
  k.medications ++ k.dosages ++ k.clinical_criteria ++ k.patient_types

/-- `IntelligentMedicalProcessor._extract_medical_entities_from_chunk`:
every entity string from every page's aggregate whose lowercase form is
contained in the lowercase chunk text, deduplicated.  (The Python code
collects into a `set` whose iteration order is unspecified; the embedding
fixes first-encounter order.) -/
def extract_medical_entities_from_chunk (chunk_text : Str)
    (page_analyses : List PageAnalysis) : List Str :=
  ((page_analyses.flatMap kmiEntities).filter
    (fun e => decide (pyLower e <:+: pyLower chunk_text))).eraseDups

/-- The page-boundary marker `"\n\n=== PAGE {i+1} ===\n"` prepended to each
non-empty page text. -/
def pageHeader (n : Nat) : Str :=
  "\n\n=== PAGE ".toList ++ Nat.toDigits 10 n ++ " ===\n".toList

/-- `IntelligentMedicalProcessor.process_medical_document`: concatenate the
non-blank page texts (each prefixed with its page marker, joined with
`"\n"`), split the concatenation with the injected text splitter, and wrap
each resulting chunk into a `LangChainDocument` with its attribution
metadata. -/
def process_medical_document (split : Str → List Str) (doc_path : Str)
    (page_analyses : List PageAnalysis) : List LCDoc :=
  let all_text_content := page_analyses.enum.filterMap (fun p =>
    let full_text := p.2.full_text.getD []
    if pyStrip full_text ≠ [] then some (pageHeader (p.1 + 1) ++ full_text)
    else none)
  let complete_document_text := List.intercalate ['\n'] all_text_content
  let text_chunks := split complete_document_text
  text_chunks.enum.map (fun q =>
    { page_content := q.2
      metadata :=
        { source := doc_path
          chunk_id := q.1
          page := find_page_for_chunk q.2 page_analyses
          chunk_size := q.2.length
          medical_entities := extract_medical_entities_from_chunk q.2 page_analyses
          document_type := "medical_guidelines".toList
          extraction_method := "claude_vision_ocr".toList
          total_chunks := text_chunks.length } })

/-- C10: every passage list produced by `process_medical_document` carries
consistent metadata: the passage at position `i` has `chunk_id = i`,
`chunk_size` equal to the character length of its own text content, and
`total_chunks` equal to the length of the produced list. -/
theorem C10_passage_metadata_invariant (split : Str → List Str)
    (doc_path : Str) (page_analyses : List PageAnalysis) (i : Nat)
    (h : i < (process_medical_document split doc_path page_analyses).length) :
    (process_medical_document split doc_path page_analyses)[i].metadata.chunk_id
        = i ∧
    (process_medical_document split doc_path page_analyses)[i].metadata.chunk_size
        = (process_medical_document split doc_path page_analyses)[i].page_content.length ∧
    (process_medical_document split doc_path page_analyses)[i].metadata.total_chunks
        = (process_medical_document split doc_path page_analyses).length := by
  have hlen : (process_medical_document split doc_path page_analyses).length
      = (split (List.intercalate ['\n']
          (page_analyses.enum.filterMap (fun p =>
            let full_text := p.2.full_text.getD []
            if pyStrip full_text ≠ [] then some (pageHeader (p.1 + 1) ++ full_text)
            else none)))).length := by
    simp [process_medical_document]
  refine ⟨?_, ?_, ?_⟩ <;>
    simp [process_medical_document, List.getElem_map, List.getElem_enum, hlen]

/-- C10 witness: a one-chunk run (identity splitter over a single page
whose text is `"hi"`) satisfies the metadata invariant at position 0. -/
theorem C10_passage_metadata_invariant_witness :
    0 < (process_medical_document (fun s => [s]) []
          [{ full_text := some "hi".toList, page_type := none,
             page_number := some 0, sections := none,
             key_medical_info := none }]).length ∧
    ((process_medical_document (fun s => [s]) []
        [{ full_text := some "hi".toList, page_type := none,
           page_number := some 0, sections := none,
           key_medical_info := none }]).get
      ⟨0, by decide⟩).metadata.chunk_id = 0 :=
  ⟨by decide,
    (C10_passage_metadata_invariant (fun s => [s]) []
      [{ full_text := some "hi".toList, page_type := none,
         page_number := some 0, sections := none,
         key_medical_info := none }] 0 (by decide)).1⟩

/-!
## Index manager (`rag_service.py`, `RAGService`)

The in-memory Qdrant client is embedded as an association list of named
collections.  `ensure_collection` additionally reports the client
operations it performed, so that "must not delete or recreate" is
observable.
-/

/-- The distance metric of a collection (`Distance.COSINE` is the only one
the code ever creates). -/
inductive QDistance where
  | cosine
deriving DecidableEq

/-- One Qdrant collection: its configured vector dimension
(`VectorParams.size`), distance metric, and number of stored points. -/
structure QCollection where
  size : Nat
  distance : QDistance
  points : Nat
deriving DecidableEq

/-- The in-memory Qdrant client state: the named collections. -/
structure QdrantState where
  collections : List (Str × QCollection)
deriving DecidableEq

/-- The low-level client operations `ensure_collection` can perform. -/
inductive QOp where
  | getCollections
  | getCollection
  | deleteOp
  | createOp
deriving DecidableEq

/-- `qdrant_client.get_collection(name)` (first matching entry). -/
def qdrantLookup (st : QdrantState) (name : Str) : Option QCollection :=
  (st.collections.find? (fun p => decide (p.1 = name))).map (·.2)

/-- `qdrant_client.delete_collection(name)`. -/
def qdrantDelete (st : QdrantState) (name : Str) : QdrantState :=
  ⟨st.collections.filter (fun p => !(decide (p.1 = name)))⟩

/-- `qdrant_client.create_collection(name, VectorParams(size, COSINE))`:
a fresh, empty collection. -/
def qdrantCreate (st : QdrantState) (name : Str) (dim : Nat) : QdrantState :=
  ⟨st.collections ++ [(name, ⟨dim, QDistance.cosine, 0⟩)]⟩

/-- `RAGService._get_embedding_dimension`: the static model-to-dimension
table, `dict.get(model, 1536)` so unknown identifiers default to 1536. -/
def get_embedding_dimension (model : Str) : Nat :=
  if model = "text-embedding-3-small".toList then 1536
  else if model = "text-embedding-3-large".toList then 3072
  else if model = "text-embedding-ada-002".toList then 1536
  else if model = "text-embedding-002".toList then 1536
  else 1536

/-- `RAGService.ensure_collection`: check existence via `get_collections`,
read the existing dimension via `get_collection`, delete on mismatch (or on
a failed info read), then create when absent.  Returns the new state, the
Boolean result, and the trace of client operations performed. -/
def ensure_collection (model : Str) (st : QdrantState) (collection_name : Str) :
    QdrantState × Bool × List QOp :=
  let current_dimension := get_embedding_dimension model
  if st.collections.any (fun p => decide (p.1 = collection_name)) then
    match qdrantLookup st collection_name with
    | some info =>
      if info.size ≠ current_dimension then
        (qdrantCreate (qdrantDelete st collection_name) collection_name
           current_dimension,
         true, [.getCollections, .getCollection, .deleteOp, .createOp])
      else (st, true, [.getCollections, .getCollection])
    | none =>
      (qdrantCreate (qdrantDelete st collection_name) collection_name
         current_dimension,
       true, [.getCollections, .getCollection, .deleteOp, .createOp])
  else
    (qdrantCreate st collection_name current_dimension, true,
     [.getCollections, .createOp])

/-- After delete-then-create, the name maps to the fresh empty collection. -/
theorem lookup_create_delete (st : QdrantState) (name : Str) (dim : Nat) :
    qdrantLookup (qdrantCreate (qdrantDelete st name) name dim) name
      = some ⟨dim, QDistance.cosine, 0⟩ := by
  unfold qdrantLookup qdrantCreate qdrantDelete
  rw [List.find?_append]
  have hnone : ((st.collections.filter
      (fun p => !(decide (p.1 = name)))).find?
        (fun p => decide (p.1 = name))) = none := by
    rw [List.find?_eq_none]
    intro x hx
    have := List.of_mem_filter hx
    simpa using this
  rw [hnone]
  simp

/-- Creating an absent name makes it map to the fresh empty collection. -/
theorem lookup_create_of_absent (st : QdrantState) (name : Str) (dim : Nat)
    (h : st.collections.any (fun p => decide (p.1 = name)) = false) :
    qdrantLookup (qdrantCreate st name dim) name
      = some ⟨dim, QDistance.cosine, 0⟩ := by
  unfold qdrantLookup qdrantCreate
  rw [List.find?_append]
  have hnone : st.collections.find? (fun p => decide (p.1 = name)) = none := by
    rw [List.find?_eq_none]
    intro x hx hpx
    rw [Bool.eq_false_iff] at h
    exact h (List.any_eq_true.mpr ⟨x, hx, hpx⟩)
  rw [hnone]
  simp

/-- A successful lookup implies the existence check succeeds. -/
theorem any_of_lookup_some (st : QdrantState) (name : Str) (c : QCollection)
    (h : qdrantLookup st name = some c) :
    st.collections.any (fun p => decide (p.1 = name)) = true := by
  unfold qdrantLookup at h
  rcases hf : st.collections.find? (fun p => decide (p.1 = name)) with _ | q
  · rw [hf] at h; cases h
  · have hq := List.find?_some hf
    exact List.any_eq_true.mpr ⟨q, List.mem_of_find?_eq_some hf, hq⟩

/-- After any `ensure_collection` call, the collection exists and its
dimension matches the configured model. -/
theorem ensure_collection_establishes (model : Str) (st : QdrantState)
    (name : Str) :
    ∃ c : QCollection,
      qdrantLookup (ensure_collection model st name).1 name = some c ∧
      c.size = get_embedding_dimension model := by
  by_cases hex : st.collections.any (fun p => decide (p.1 = name)) = true
  · rcases hl : qdrantLookup st name with _ | info
    · have : ensure_collection model st name
          = (qdrantCreate (qdrantDelete st name) name
               (get_embedding_dimension model),
             true, [.getCollections, .getCollection, .deleteOp, .createOp]) := by
        simp [ensure_collection, hex, hl]
      rw [this]
      exact ⟨_, lookup_create_delete st name _, rfl⟩
    · by_cases hdim : info.size ≠ get_embedding_dimension model
      · have : ensure_collection model st name
            = (qdrantCreate (qdrantDelete st name) name
                 (get_embedding_dimension model),
               true, [.getCollections, .getCollection, .deleteOp, .createOp]) := by
          simp [ensure_collection, hex, hl, hdim]
        rw [this]
        exact ⟨_, lookup_create_delete st name _, rfl⟩
      · have : ensure_collection model st name
            = (st, true, [.getCollections, .getCollection]) := by
          simp [ensure_collection, hex, hl, hdim]
        rw [this]
        push_neg at hdim
        exact ⟨info, hl, hdim⟩
  · have hex2 : st.collections.any (fun p => decide (p.1 = name)) = false :=
      Bool.not_eq_true _ ▸ eq_false_of_ne_true hex
    have : ensure_collection model st name
        = (qdrantCreate st name (get_embedding_dimension model), true,
           [.getCollections, .createOp]) := by
      simp [ensure_collection, hex2]
    rw [this]
    exact ⟨_, lookup_create_of_absent st name _ hex2, rfl⟩

/-- C4: if the collection exists with dimension `D1` and the configured
model maps to `D2 ≠ D1`, `ensure_collection` deletes and recreates it: the
resulting collection is empty (0 points), has dimension `D2` and cosine
distance, and the call performed a delete and a create.  Moreover the
dimension comes from the static lookup table, whose known entries are
1536/3072/1536/1536 and whose default for unknown identifiers is 1536. -/
theorem C4_dimension_mismatch_self_heal (model : Str) (st : QdrantState)
    (name : Str) (c : QCollection)
    (hc : qdrantLookup st name = some c)
    (hdim : c.size ≠ get_embedding_dimension model) :
    qdrantLookup (ensure_collection model st name).1 name
      = some ⟨get_embedding_dimension model, QDistance.cosine, 0⟩ ∧
    QOp.deleteOp ∈ (ensure_collection model st name).2.2 ∧
    QOp.createOp ∈ (ensure_collection model st name).2.2 ∧
    get_embedding_dimension "text-embedding-3-small".toList = 1536 ∧
    get_embedding_dimension "text-embedding-3-large".toList = 3072 ∧
    get_embedding_dimension "text-embedding-ada-002".toList = 1536 ∧
    get_embedding_dimension "text-embedding-002".toList = 1536 ∧
    (∀ m : Str,
      m ∉ ["text-embedding-3-small".toList, "text-embedding-3-large".toList,
           "text-embedding-ada-002".toList, "text-embedding-002".toList] →
      get_embedding_dimension m = 1536) := by
  have hens : ensure_collection model st name
      = (qdrantCreate (qdrantDelete st name) name
           (get_embedding_dimension model),
         true, [.getCollections, .getCollection, .deleteOp, .createOp]) := by
    simp [ensure_collection, any_of_lookup_some st name c hc, hc, hdim]
  refine ⟨?_, ?_, ?_, by decide, by decide, by decide, by decide, ?_⟩
  · rw [hens]
    exact lookup_create_delete st name _
  · rw [hens]; simp
  · rw [hens]; simp
  · intro m hm
    unfold get_embedding_dimension
    simp only [List.mem_cons, List.mem_singleton] at hm
    push_neg at hm
    rw [if_neg hm.1, if_neg hm.2.1, if_neg hm.2.2.1, if_neg hm.2.2.2.1]

/-- C4 witness: a collection of dimension 384 under model
`text-embedding-3-large` (dimension 3072) is recreated empty with
dimension 3072 and cosine distance. -/
theorem C4_dimension_mismatch_self_heal_witness :
    qdrantLookup ⟨[("c".toList, ⟨384, QDistance.cosine, 5⟩)]⟩ "c".toList
      = some ⟨384, QDistance.cosine, 5⟩ ∧
    qdrantLookup
        (ensure_collection "text-embedding-3-large".toList
          ⟨[("c".toList, ⟨384, QDistance.cosine, 5⟩)]⟩ "c".toList).1 "c".toList
      = some ⟨3072, QDistance.cosine, 0⟩ :=
  ⟨by decide,
    (C4_dimension_mismatch_self_heal "text-embedding-3-large".toList
      ⟨[("c".toList, ⟨384, QDistance.cosine, 5⟩)]⟩ "c".toList
      ⟨384, QDistance.cosine, 5⟩ (by decide) (by decide)).1⟩

/-- C5: `ensure_collection` is idempotent: calling it twice in a row with
no change to the configured model leaves the state (hence the collection's
point count and dimension) exactly as after the first call, returns `true`,
and the second call performs no delete and no create — it only reads. -/
theorem C5_ensure_collection_idempotent (model : Str) (st : QdrantState)
    (name : Str) :
    ensure_collection model (ensure_collection model st name).1 name
      = ((ensure_collection model st name).1, true,
         [QOp.getCollections, QOp.getCollection]) ∧
    QOp.deleteOp ∉
      (ensure_collection model (ensure_collection model st name).1 name).2.2 ∧
    QOp.createOp ∉
      (ensure_collection model (ensure_collection model st name).1 name).2.2 := by
  obtain ⟨c, hc, hsize⟩ := ensure_collection_establishes model st name
  generalize hst1 : (ensure_collection model st name).1 = st1 at hc ⊢
  have h2 : ensure_collection model st1 name
      = (st1, true, [QOp.getCollections, QOp.getCollection]) := by
    simp [ensure_collection, any_of_lookup_some st1 name c hc, hc, hsize]
  refine ⟨h2, ?_, ?_⟩ <;> rw [h2] <;> simp

/-!
## Document processing (`rag_service.py`, `RAGService.process_document`)

The component outcomes (vision pipeline, embedding batch call, upsert) are
oracles; the embedding mirrors the guard checks, the empty-content check,
the ignored Boolean result of `ensure_collection`, and the outer
`except ... raise` that re-raises any failure.  The trace records which
pipeline stages were entered, making "does not continue to embedding or
upsert" observable.
-/

/-- Whether a fallible call returned normally. -/
def exceptOk {ε α : Type} : Except ε α → Bool
  | .ok _ => true
  | .error _ => false

/-- Embedding vectors (floats embedded as rationals; the code only passes
them through to the vector store). -/
abbrev Vec := List ℚ

/-- The pipeline stages `process_document` can enter. -/
inductive PStep where
  | vision
  | ensure
  | embed
  | upsert
deriving DecidableEq

/-- The result dict of a successful `process_document` run (the
`vectorstore` handle is omitted: it is an opaque client object). -/
structure ProcResult where
  document_id : Str
  collection_name : Str
  total_chunks : Nat
  status : Str
deriving DecidableEq

/-- The environment of one `process_document` run: component
initialization flags and the outcomes of the external calls it makes. -/
structure ProcessEnv where
  processorInit : Bool
  embeddingsInit : Bool
  visionOutcome : Except Str (List LCDoc)
  ensureOutcome : Bool
  embedOutcome : Except Str (List Vec)
  upsertOutcome : Except Str Unit

/-- `RAGService.process_document`: guard checks raise `ValueError` for
missing components; the vision pipeline runs; an empty document list
raises "Aucun contenu extrait du document"; `ensure_collection` is called
and its Boolean result is discarded; embedding and upsert run, any
exception re-raised by the outer handler.  Returns the trace of stages
entered and the raised-or-returned outcome. -/
def process_document (env : ProcessEnv) (document_id : Str) :
    List PStep × Except Str ProcResult :=
  if env.processorInit = false then
    ([], .error "Processeur médical non initialisé (clé Anthropic manquante)".toList)
  else if env.embeddingsInit = false then
    ([], .error "Embeddings non initialisés (clé OpenAI manquante)".toList)
  else
    match env.visionOutcome with
    | .error e => ([.vision], .error e)
    | .ok documents =>
      if documents.isEmpty then
        ([.vision], .error "Aucun contenu extrait du document".toList)
      else
        match env.embedOutcome with
        | .error e => ([.vision, .ensure, .embed], .error e)
        | .ok _vectors =>
          match env.upsertOutcome with
          | .error e => ([.vision, .ensure, .embed, .upsert], .error e)
          | .ok _ =>
            ([.vision, .ensure, .embed, .upsert],
             .ok { document_id := document_id
                   collection_name := "medical_doc_".toList ++ document_id
                   total_chunks := documents.length
                   status := "success".toList })

/-- C3 counterexample: with a failing `ensure_collection`
(`ensureOutcome := false`) and all other calls succeeding,
`process_document` nevertheless returns success and its trace shows the
embedding and upsert stages were entered — the claimed raise-and-stop
behaviour does not happen. -/
theorem C3_ensure_failure_not_fatal_counterexample :
    (process_document
        { processorInit := true, embeddingsInit := true,
          visionOutcome := Except.ok
            [⟨"t".toList, ⟨[], 0, 0, 1, [], [], [], 1⟩⟩],
          ensureOutcome := false,
          embedOutcome := Except.ok [[(1 : ℚ)]],
          upsertOutcome := Except.ok () } "d".toList).2
      = Except.ok
          { document_id := "d".toList,
            collection_name := "medical_doc_d".toList,
            total_chunks := 1, status := "success".toList } ∧
    PStep.embed ∈ (process_document
        { processorInit := true, embeddingsInit := true,
          visionOutcome := Except.ok
            [⟨"t".toList, ⟨[], 0, 0, 1, [], [], [], 1⟩⟩],
          ensureOutcome := false,
          embedOutcome := Except.ok [[(1 : ℚ)]],
          upsertOutcome := Except.ok () } "d".toList).1 ∧
    PStep.upsert ∈ (process_document
        { processorInit := true, embeddingsInit := true,
          visionOutcome := Except.ok
            [⟨"t".toList, ⟨[], 0, 0, 1, [], [], [], 1⟩⟩],
          ensureOutcome := false,
          embedOutcome := Except.ok [[(1 : ℚ)]],
          upsertOutcome := Except.ok () } "d".toList).1 := by
  refine ⟨rfl, ?_, ?_⟩ <;> decide

/-- C3 (amended): `ensure_collection` reports failure only through its
Boolean return value, which `process_document` discards: the entire run
(trace and outcome) is independent of whether ensuring the collection
succeeded, so on failure processing still continues to embedding and
upsert, and no error is raised at that point. -/
theorem C3_ensure_result_ignored (env : ProcessEnv) (document_id : Str)
    (b₁ b₂ : Bool) :
    process_document { env with ensureOutcome := b₁ } document_id
      = process_document { env with ensureOutcome := b₂ } document_id := rfl

/-!
## Retrieval (`rag_service.py`, `RAGService.search_similar_documents`)
-/

/-- One `(Document, score)` pair returned by
`similarity_search_with_score` (similarity scores are floats, embedded as
rationals; the code only wraps them unchanged). -/
structure SearchHit where
  page_content : Str
  metadata : ChunkMetadata
  score : ℚ
deriving DecidableEq

/-- One formatted entry of the list returned by
`search_similar_documents`. -/
structure FormattedResult where
  content : Str
  metadata : ChunkMetadata
  similarity_score : ℚ
deriving DecidableEq

/-- `RAGService.search_similar_documents`: raises `ValueError` when the
embeddings component is uninitialized (this check precedes the `try`
block); inside the `try`, any failure of the vector-store search is caught
and an empty list is returned; on success each hit is mapped to
`{content, metadata, similarity_score}`. -/
def search_similar_documents (embeddingsInit : Bool) (query : Str)
    (collection_name : Str) (limit : Nat)
    (searchOutcome : Except Str (List SearchHit)) :
    Except Str (List FormattedResult) :=
  if embeddingsInit = false then
    .error "Embeddings non initialisés".toList
  else
    match searchOutcome with
    | .error _ => .ok []
    | .ok results =>
      .ok (results.map (fun h => ⟨h.page_content, h.metadata, h.score⟩))

/-- C2 counterexample: with the embeddings component uninitialized,
`search_similar_documents` raises `ValueError("Embeddings non
initialisés")` instead of returning the empty list — the check precedes
the `try` block, so "returns [] on any error including uninitialized
components" is false. -/
theorem C2_uninitialized_raises_counterexample :
    search_similar_documents false "q".toList "c".toList 5 (Except.ok [])
      = Except.error "Embeddings non initialisés".toList ∧
    exceptOk (search_similar_documents false "q".toList "c".toList 5
      (Except.ok [])) = false := ⟨rfl, rfl⟩

/-- C2 (amended): once the embeddings component is initialized,
`search_similar_documents` never raises: it returns the mapped
`{content, metadata, similarity_score}` list on success and the empty
list on any error of the underlying search. With the embeddings component
uninitialized it raises `ValueError` instead. -/
theorem C2_search_error_handling :
    (∀ (query collection_name : Str) (limit : Nat)
        (oc : Except Str (List SearchHit)),
      exceptOk (search_similar_documents true query collection_name limit oc)
        = true) ∧
    (∀ (query collection_name : Str) (limit : Nat) (e : Str),
      search_similar_documents true query collection_name limit
          (Except.error e) = Except.ok []) ∧
    (∀ (query collection_name : Str) (limit : Nat)
        (hits : List SearchHit),
      search_similar_documents true query collection_name limit
          (Except.ok hits)
        = Except.ok (hits.map (fun h => ⟨h.page_content, h.metadata, h.score⟩))) ∧
    (∀ (query collection_name : Str) (limit : Nat)
        (oc : Except Str (List SearchHit)),
      search_similar_documents false query collection_name limit oc
        = Except.error "Embeddings non initialisés".toList) := by
  refine ⟨?_, ?_, ?_, ?_⟩
  · intro query collection_name limit oc
    cases oc <;> rfl
  · intro query collection_name limit e; rfl
  · intro query collection_name limit hits; rfl
  · intro query collection_name limit oc; rfl

/-!
## The recursive text splitter (modelled from the spec)

`process_medical_document` delegates splitting to the langchain
`RecursiveCharacterTextSplitter` library (configured with chunk size 800,
overlap 100 and the separator hierarchy below), which is not part of this
repository.  The model below follows §4.3 of the spec: try the most
structural separator first, recurse with the remaining separators into any
piece still larger than the target size, never split below the finest
separator.  Separators stay attached to the pieces (the library's
`keep_separator` behaviour), so splitting preserves the text's characters;
pieces are whitespace-stripped and empty pieces dropped, so an empty
document yields zero chunks.  Merging adjacent small pieces into
target-size chunks with overlap is omitted: it only concatenates and
duplicates content and cannot affect whether at least one passage exists.
-/

/-- Index of the first occurrence of `sep` as a contiguous substring. -/
def findSub (sep : Str) : Str → Option Nat
  | [] => none
  | c :: s =>
    if sep.isPrefixOf (c :: s) then some 0 else (findSub sep s).map (· + 1)

/-- Split at every occurrence of `sep`, keeping each separator attached to
the end of the piece it terminates. -/
def splitKeep (sep : Str) (text : Str) : List Str :=
  if hsep : sep = [] then [text]
  else
    match hf : findSub sep text with
    | none => [text]
    | some k =>
      text.take (k + sep.length) :: splitKeep sep (text.drop (k + sep.length))
termination_by text.length
decreasing_by
  simp only [List.length_drop]
  have hlen : 0 < sep.length := List.length_pos.mpr hsep
  have htext : text ≠ [] := by
    intro h
    rw [h] at hf
    cases hf
  have : 0 < text.length := List.length_pos.mpr htext
  omega

/-- `splitKeep` loses no characters: the pieces concatenate back to the
input. -/
theorem splitKeep_flatten (sep : Str) :
    ∀ text : Str, (splitKeep sep text).flatten = text := by
  intro text
  induction text using splitKeep.induct sep with
  | case1 text hsep => rw [splitKeep]; simp [hsep]
  | case2 text hsep hf =>
    rw [splitKeep, dif_neg hsep]
    split
    · simp
    · rename_i k hk
      rw [hf] at hk
      cases hk
  | case3 text hsep k hf ih =>
    rw [splitKeep, dif_neg hsep]
    split
    · rename_i hk
      rw [hf] at hk
      cases hk
    · rename_i k2 hk
      rw [hf] at hk
      cases hk
      simp [List.flatten_cons, ih]

/-- Modelled from the spec: the recursive-separator splitting strategy of
§4.3 (the langchain `RecursiveCharacterTextSplitter._split_text` core,
which is library code outside this repository).  A text at or under the
target size stays whole; otherwise it is split on the current separator and
every piece still above the target size is split recursively with the
remaining, finer separators; below the finest separator a piece is never
split. -/
def splitRec (size : Nat) : List Str → Str → List Str
  | [], text => [text]
  | sep :: rest, text =>
    if text.length ≤ size then [text]
    else (splitKeep sep text).flatMap (fun piece =>
      if piece.length ≤ size then [piece] else splitRec size rest piece)

/-- `splitRec` loses no characters. -/
theorem splitRec_flatten (size : Nat) :
    ∀ (seps : List Str) (text : Str), (splitRec size seps text).flatten = text := by
  intro seps
  induction seps with
  | nil => intro text; simp [splitRec]
  | cons sep rest ih =>
    intro text
    rw [splitRec]
    split
    · simp
    · have hp : ∀ pieces : List Str,
          (pieces.flatMap (fun piece =>
            if piece.length ≤ size then [piece]
            else splitRec size rest piece)).flatten = pieces.flatten := by
        intro pieces
        induction pieces with
        | nil => simp
        | cons p ps ihp =>
          rw [List.flatMap_cons, List.flatten_append, ihp, List.flatten_cons]
          congr 1
          split
          · simp
          · exact ih p
      rw [hp, splitKeep_flatten]

/-- Modelled from the spec: the passages produced from one text — the
recursive split, each piece whitespace-stripped, empty pieces dropped
(§4.3's "skip pages whose text is empty/whitespace" and the zero-chunks
edge case for empty documents). -/
def splitTextSpec (size : Nat) (seps : List Str) (text : Str) : List Str :=
  ((splitRec size seps text).map pyStrip).filter (· ≠ [])

/-- The separator hierarchy configured on the splitter in
`vision_processor.py` (title markers, blank lines, table markers, bullet
markers, sentence periods, plain spaces). -/
def splitterSeparators : List Str :=
  ["\n\n*** ".toList, "\n\n".toList, "\n=== ".toList, "\n• ".toList,
   "\n- ".toList, ". ".toList, " ".toList]

/-- A string strips to empty exactly when it is all whitespace. -/
theorem pyStrip_eq_nil_iff (s : Str) :
    pyStrip s = [] ↔ ∀ c ∈ s, isPyWS c = true := by
  constructor
  · intro h c hc
    by_contra hcw
    have h1 : (s.dropWhile isPyWS).reverse.dropWhile isPyWS = [] := by
      have := congrArg List.reverse h
      simpa [pyStrip] using this
    have h2 : ∀ x ∈ (s.dropWhile isPyWS).reverse, isPyWS x = true :=
      List.dropWhile_eq_nil_iff.mp h1
    have hcd : c ∈ s.dropWhile isPyWS := by
      clear h h1 h2
      induction s with
      | nil => cases hc
      | cons a s ihs =>
        rw [List.dropWhile_cons]
        rcases List.mem_cons.mp hc with rfl | hc2
        · rw [if_neg (by simp [hcw])]
          exact List.mem_cons_self _ _
        · split
          · exact ihs hc2
          · exact List.mem_cons_of_mem _ hc2
    exact hcw (h2 c (List.mem_reverse.mpr hcd))
  · intro h
    have h1 : s.dropWhile isPyWS = [] := List.dropWhile_eq_nil_iff.mpr h
    simp [pyStrip, h1]

/-- A text containing a non-whitespace character always yields at least
one passage. -/
theorem splitTextSpec_ne_nil (size : Nat) (seps : List Str) (text : Str)
    (h : ∃ c ∈ text, isPyWS c = false) :
    splitTextSpec size seps text ≠ [] := by
  obtain ⟨c, hc, hcw⟩ := h
  have hcf : c ∈ (splitRec size seps text).flatten := by
    rw [splitRec_flatten]; exact hc
  obtain ⟨piece, hp, hcp⟩ := List.mem_flatten.mp hcf
  have hstrip : pyStrip piece ≠ [] := by
    rw [Ne, pyStrip_eq_nil_iff]
    push_neg
    exact ⟨c, hcp, by simp [hcw]⟩
  intro hnil
  have hmem : pyStrip piece ∈ splitTextSpec size seps text :=
    List.mem_filter.mpr ⟨List.mem_map_of_mem _ hp, by simpa using hstrip⟩
  rw [hnil] at hmem
  cases hmem

/-- A character of a member string is a character of the joined string. -/
theorem mem_intercalate_of_mem (sep : Str) (c : Char) :
    ∀ (l : List Str) (x : Str), x ∈ l → c ∈ x → c ∈ List.intercalate sep l := by
  intro l
  induction l with
  | nil => intro x hx; cases hx
  | cons a t ih =>
    intro x hx hc
    cases t with
    | nil =>
      rcases List.mem_cons.mp hx with rfl | h
      · rw [intercalate_single]; exact hc
      · cases h
    | cons b t2 =>
      rw [intercalate_cons_cons]
      rcases List.mem_cons.mp hx with rfl | h
      · exact List.mem_append_left _ (List.mem_append_left _ hc)
      · exact List.mem_append_right _ (ih x h hc)

/-- A non-whitespace character of a non-blank page's text appears in the
assembled complete document text. -/
theorem mem_complete_text (page_analyses : List PageAnalysis)
    (a : PageAnalysis) (c : Char) (ha : a ∈ page_analyses)
    (hstrip : pyStrip (a.full_text.getD []) ≠ [])
    (hc : c ∈ a.full_text.getD []) :
    c ∈ List.intercalate ['\n']
        (page_analyses.enum.filterMap (fun p =>
          let full_text := p.2.full_text.getD []
          if pyStrip full_text ≠ [] then
            some (pageHeader (p.1 + 1) ++ full_text)
          else none)) := by
  obtain ⟨i, hi, hgi⟩ := List.mem_iff_getElem.mp ha
  have henum : (i, a) ∈ page_analyses.enum := by
    rw [List.mk_mem_enum_iff_getElem?]
    rw [List.getElem?_eq_getElem hi, hgi]
  have hentry : pageHeader (i + 1) ++ a.full_text.getD []
      ∈ page_analyses.enum.filterMap (fun p =>
          let full_text := p.2.full_text.getD []
          if pyStrip full_text ≠ [] then
            some (pageHeader (p.1 + 1) ++ full_text)
          else none) := by
    apply List.mem_filterMap.mpr
    refine ⟨(i, a), henum, ?_⟩
    simp only
    rw [if_pos hstrip]
  exact mem_intercalate_of_mem ['\n'] c _ _ hentry
    (List.mem_append_right _ hc)

/-- C8: a run whose vision stage yields no documents raises "Aucun contenu
extrait du document" and never reaches embedding or upsert (the document is
not indexed); conversely, with the spec-modelled splitter, any document
having at least one page with non-blank extracted text produces at least
one passage. -/
theorem C8_zero_content_policy :
    (∀ (env : ProcessEnv) (document_id : Str),
      env.processorInit = true → env.embeddingsInit = true →
      env.visionOutcome = Except.ok [] →
      (process_document env document_id).2
          = Except.error "Aucun contenu extrait du document".toList ∧
      PStep.upsert ∉ (process_document env document_id).1 ∧
      PStep.embed ∉ (process_document env document_id).1) ∧
    (∀ (size : Nat) (seps : List Str) (doc_path : Str)
        (page_analyses : List PageAnalysis),
      (∃ a ∈ page_analyses, pyStrip (a.full_text.getD []) ≠ []) →
      process_medical_document (splitTextSpec size seps) doc_path page_analyses
        ≠ []) := by
  constructor
  · intro env document_id h1 h2 h3
    have hrun : process_document env document_id
        = ([.vision], .error "Aucun contenu extrait du document".toList) := by
      unfold process_document
      rw [h1, h2, h3]
      rfl
    rw [hrun]
    exact ⟨rfl, by decide, by decide⟩
  · intro size seps doc_path page_analyses hpage
    obtain ⟨a, ha, hstrip⟩ := hpage
    have hchar : ∃ c ∈ a.full_text.getD [], isPyWS c = false := by
      by_contra hall
      push_neg at hall
      exact hstrip (pyStrip_eq_nil_iff _ |>.mpr (by
        intro c hc
        have := hall c hc
        simpa using this))
    obtain ⟨c, hc, hcw⟩ := hchar
    have hcomplete := mem_complete_text page_analyses a c ha hstrip hc
    have hchunks : splitTextSpec size seps
        (List.intercalate ['\n']
          (page_analyses.enum.filterMap (fun p =>
            let full_text := p.2.full_text.getD []
            if pyStrip full_text ≠ [] then
              some (pageHeader (p.1 + 1) ++ full_text)
            else none))) ≠ [] :=
      splitTextSpec_ne_nil size seps _ ⟨c, hcomplete, hcw⟩
    intro hnil
    apply hchunks
    have hlen := congrArg List.length hnil
    simp only [process_medical_document, List.length_map, List.enum_length,
      List.length_nil] at hlen
    exact List.eq_nil_of_length_eq_zero hlen

/-- C8 witness: an environment whose vision stage extracted nothing raises
the zero-content error; a single page reading "Amoxicilline 1g" yields at
least one passage under the configured splitter. -/
theorem C8_zero_content_policy_witness :
    (process_document
        { processorInit := true, embeddingsInit := true,
          visionOutcome := Except.ok [], ensureOutcome := true,
          embedOutcome := Except.ok [], upsertOutcome := Except.ok () }
        "d".toList).2
      = Except.error "Aucun contenu extrait du document".toList ∧
    process_medical_document (splitTextSpec 800 splitterSeparators) []
        [{ full_text := some "Amoxicilline 1g".toList, page_type := none,
           page_number := some 0, sections := none,
           key_medical_info := none }] ≠ [] :=
  ⟨(C8_zero_content_policy.1
      { processorInit := true, embeddingsInit := true,
        visionOutcome := Except.ok [], ensureOutcome := true,
        embedOutcome := Except.ok [], upsertOutcome := Except.ok () }
      "d".toList rfl rfl rfl).1,
   C8_zero_content_policy.2 800 splitterSeparators []
     [{ full_text := some "Amoxicilline 1g".toList, page_type := none,
        page_number := some 0, sections := none,
        key_medical_info := none }]
     ⟨{ full_text := some "Amoxicilline 1g".toList, page_type := none,
        page_number := some 0, sections := none,
        key_medical_info := none }, by decide⟩⟩

end RagChu
